import Mathlib

/-!
Verification of the speech-to-text core of the repository
(packages/desktop/src-tauri/src/stt.rs) against its specification.

The Rust code is shallowly embedded:
  - f32 logit and sample values are modelled by Int (resp. Rat): the decode
    algorithm only compares logits and copies state values, so any linearly
    ordered type is a faithful model of the NaN-free float behaviour;
  - the three ONNX engines are opaque capabilities; they are modelled as
    total oracles (the decoder-joint as a function from the iteration index
    to its returned tensors), matching the "named inputs to named outputs"
    boundary of the spec;
  - effectful operations (HTTP download, file system, event emission) are
    modelled by an explicit environment and an explicit result state.
-/

/-- Whitespace predicate modelling the characters relevant to Rust
str::trim and str::split_whitespace (space, tab, newline, carriage
return; the Unicode White_Space extension is irrelevant to the claims). -/
def isWsChar (c : Char) : Bool :=
  c = ' ' ∨ c = '\t' ∨ c = '\n' ∨ c = '\r'

/-- Model of Rust str::trim on a character list: drop leading and
trailing whitespace. -/
def trimChars (cs : List Char) : List Char :=
  ((cs.dropWhile isWsChar).reverse.dropWhile isWsChar).reverse

/-- Model of Rust str::split(' '): split at every single space character,
keeping empty pieces (so the empty input yields one empty piece). -/
def splitSpaces : List Char → List (List Char)
  | [] => [[]]
  | c :: rest =>
    if c = ' ' then [] :: splitSpaces rest
    else
      match splitSpaces rest with
      | [] => [[c]]
      | p :: ps => (c :: p) :: ps

/-- Accumulator for the model of Rust str::split_whitespace: collects
maximal runs of non-whitespace characters, skipping empty runs. -/
def splitWsAux : List Char → List Char → List (List Char)
  | [], acc => if acc.isEmpty then [] else [acc.reverse]
  | c :: cs, acc =>
    if isWsChar c then
      if acc.isEmpty then splitWsAux cs [] else acc.reverse :: splitWsAux cs []
    else splitWsAux cs (c :: acc)

/-- Model of Rust str::split_whitespace. -/
def splitWsRuns (cs : List Char) : List (List Char) :=
  splitWsAux cs []

/-- Model of the final whitespace cleanup in SttInference::transcribe:
trim, split on whitespace runs, and join the pieces with single spaces
(text.trim().split_whitespace().collect().join(" ")). -/
def cleanWhitespace (cs : List Char) : List Char :=
  List.intercalate [' '] (splitWsRuns (trimChars cs))

/-- Digit-string accumulator for the model of Rust i64 parsing. -/
def digitsValAux : List Char → Nat → Option Nat
  | [], acc => some acc
  | c :: cs, acc =>
    if c.isDigit then digitsValAux cs (acc * 10 + (c.toNat - 48)) else none

/-- Model of Rust str::parse::<i64>: an optional sign followed by one or
more ASCII digits, with the value required to fit in an i64. -/
def parseI64 (cs : List Char) : Option Int :=
  let signed : Int × List Char :=
    match cs with
    | '+' :: rest => (1, rest)
    | '-' :: rest => (-1, rest)
    | _ => (1, cs)
  match signed.2 with
  | [] => none
  | ds =>
    match digitsValAux ds 0 with
    | none => none
    | some n =>
      let v : Int := signed.1 * (n : Int)
      if -(2 ^ 63) ≤ v ∧ v ≤ 2 ^ 63 - 1 then some v else none

/-- The SentencePiece leading-word-boundary marker codepoint U+2581. -/
def sentencePieceSpace : Char := '▁'

/-- Model of the token rewrite in SttState::load_vocab:
parts[0].replace(U+2581, " "). -/
def normalizeToken (cs : List Char) : List Char :=
  cs.map fun c => if c = sentencePieceSpace then ' ' else c

/-- Model of HashMap::insert on an association list kept free of
duplicate keys: overwrite the value when the key is present, append
otherwise. -/
def insertVocab (m : List (Int × List Char)) (k : Int) (v : List Char) :
    List (Int × List Char) :=
  if m.any (fun p => p.1 = k) then
    m.map (fun p => if p.1 = k then (k, v) else p)
  else m ++ [(k, v)]

/-- The line loop of SttState::load_vocab: for each line, trim it and
split on single spaces; a line with at least two pieces has its second
piece parsed as an i64 id (a parse failure aborts with an error), records
the blank id when the raw first piece is the literal blank token, and
inserts the normalized token under the id; a line with fewer than two
pieces is skipped. -/
def loadVocabGo :
    List (List Char) → List (Int × List Char) → Int →
    Except String (List (Int × List Char) × Nat × Int)
  | [], vocab, blank => .ok (vocab, vocab.length, blank)
  | line :: rest, vocab, blank =>
    let parts := splitSpaces (trimChars line)
    if 2 ≤ parts.length then
      match parseI64 (parts.getD 1 []) with
      | none => .error ("Invalid vocab ID: " ++ String.mk (parts.getD 1 []))
      | some id =>
        let token := normalizeToken (parts.getD 0 [])
        let blank2 := if parts.getD 0 [] = "<blk>".toList then id else blank
        loadVocabGo rest (insertVocab vocab id token) blank2
    else loadVocabGo rest vocab blank

/-- Model of SttState::load_vocab over the list of lines of vocab.txt:
returns the id-to-token map, the vocabulary size (the map's entry count)
and the blank id (0 when no blank entry occurs). -/
def load_vocab (lines : List (List Char)) :
    Except String (List (Int × List Char) × Nat × Int) :=
  loadVocabGo lines [] 0

/-- One fold step of Rust Iterator::max_by with the comparator
a.partial_cmp(b).unwrap_or(Equal): keep the accumulator only when it is
strictly greater, so later equal elements win. -/
def maxByF (q p : Nat × Int) : Nat × Int :=
  if p.2 < q.2 then q else p

/-- Model of logits.iter().enumerate().max_by(...) in
SttInference::transcribe: the index and value of the maximum, with ties
broken to the last (highest) index; none on an empty list. -/
def argMaxLast (xs : List Int) : Option (Nat × Int) :=
  match xs.enum with
  | [] => none
  | q :: ps => some (ps.foldl maxByF q)

/-- Modelled from the spec: arg-max with ties broken to the lowest index
under an ascending scan, as the specification describes the token and
duration selection. Used only to compare the specified tie-break rule
with the implemented one. -/
def argMaxFirst : List Int → Option (Nat × Int)
  | [] => none
  | x :: xs =>
    match argMaxFirst xs with
    | none => some (0, x)
    | some (j, v) => if x < v then some (j + 1, v) else some (0, x)

/-- The index i is the arg-max of xs with ties broken to the highest
index: it is in range, no element exceeds xs[i], and every later element
is strictly smaller. -/
def IsLastArgmax (xs : List Int) (i : Nat) : Prop :=
  i < xs.length ∧ (∀ j, j < xs.length → xs.getD j 0 ≤ xs.getD i 0) ∧
    (∀ j, j < xs.length → i < j → xs.getD j 0 < xs.getD i 0)

instance (xs : List Int) (i : Nat) : Decidable (IsLastArgmax xs i) := by
  unfold IsLastArgmax; infer_instance

/-- The tensors returned by one decoder-joint invocation: the flat joint
output (token logits then duration logits) and the two returned recurrent
state tensors, flattened. -/
structure DJOut where
  outputs : List Int
  newState1 : List Int
  newState2 : List Int
deriving DecidableEq

/-- The mutable state of the TDT decode loop in SttInference::transcribe:
emitted token ids, the frame pointer t, the same-frame emission counter
(emitted_tokens), and the two flattened recurrent state tensors. -/
structure DecState where
  tokens : List Int
  t : Nat
  emitted : Nat
  state1 : List Int
  state2 : List Int
deriving DecidableEq

/-- Token selection of one decode step: arg-max over the first vocab_size
joint outputs via Rust max_by (ties to the last index), falling back to
the blank id when that segment is empty. -/
def selectToken (vocabSize : Nat) (blankIdx : Int) (outputs : List Int) : Int :=
  match argMaxLast (outputs.take vocabSize) with
  | some iv => (iv.1 : Int)
  | none => blankIdx

/-- Duration selection of one decode step: arg-max over the joint outputs
beyond vocab_size (ties to the last index), or 0 when that segment is
empty. -/
def selectStep (vocabSize : Nat) (outputs : List Int) : Nat :=
  let durationLogits := outputs.drop vocabSize
  if durationLogits.isEmpty then 0
  else
    match argMaxLast durationLogits with
    | some iv => iv.1
    | none => 0

/-- The emission block of one decode step: when the selected token is not
blank, check both returned state sizes (a mismatch is a fatal error for
this transcription), overwrite both recurrent states, append the token
and increment the same-frame emission counter; a blank token leaves the
state untouched. -/
def emitPhase (vocabSize : Nat) (blankIdx : Int) (s : DecState) (out : DJOut) :
    Except String DecState :=
  let token := selectToken vocabSize blankIdx out.outputs
  if token = blankIdx then .ok s
  else if s.state1.length ≠ out.newState1.length then .error "State1 size mismatch"
  else if s.state2.length ≠ out.newState2.length then .error "State2 size mismatch"
  else .ok { s with
    state1 := out.newState1
    state2 := out.newState2
    tokens := s.tokens ++ [token]
    emitted := s.emitted + 1 }

/-- The advance block of one decode step, applied to the post-emission
state: a positive duration step advances t by that amount and resets the
counter; otherwise a blank token or a counter at the cap
(max_tokens_per_step = 10) advances t by one and resets the counter;
otherwise the state is unchanged. -/
def advance (blankIdx : Int) (token : Int) (step : Nat) (s : DecState) : DecState :=
  if 0 < step then { s with t := s.t + step, emitted := 0 }
  else if token = blankIdx ∨ 10 ≤ s.emitted then { s with t := s.t + 1, emitted := 0 }
  else s

/-- One full iteration of the decode loop body given the decoder-joint
output of this iteration. -/
def decodeStep (vocabSize : Nat) (blankIdx : Int) (s : DecState) (out : DJOut) :
    Except String DecState :=
  match emitPhase vocabSize blankIdx s out with
  | .error e => .error e
  | .ok s1 =>
    .ok (advance blankIdx (selectToken vocabSize blankIdx out.outputs)
      (selectStep vocabSize out.outputs) s1)

/-- Unfolding equation: a successful emission phase makes the decode step
return the advance of the post-emission state. -/
theorem decodeStep_emit_ok {vocabSize : Nat} {blankIdx : Int} {s s1 : DecState}
    {out : DJOut} (hemit : emitPhase vocabSize blankIdx s out = .ok s1) :
    decodeStep vocabSize blankIdx s out =
      .ok (advance blankIdx (selectToken vocabSize blankIdx out.outputs)
        (selectStep vocabSize out.outputs) s1) := by
  unfold decodeStep
  rw [hemit]

/-- Unfolding equation: an emission-phase error is the decode-step
error. -/
theorem decodeStep_emit_err {vocabSize : Nat} {blankIdx : Int} {s : DecState}
    {out : DJOut} {e : String}
    (hemit : emitPhase vocabSize blankIdx s out = .error e) :
    decodeStep vocabSize blankIdx s out = .error e := by
  unfold decodeStep
  rw [hemit]

/-- Emission phase on a blank token: the state passes through
unchanged. -/
theorem emitPhase_blank {vocabSize : Nat} {blankIdx : Int} {s : DecState}
    {out : DJOut} (h : selectToken vocabSize blankIdx out.outputs = blankIdx) :
    emitPhase vocabSize blankIdx s out = .ok s := by
  unfold emitPhase
  rw [if_pos h]

/-- Emission phase on a non-blank token with matching state sizes:
overwrite both recurrent states, append the token, bump the counter. -/
theorem emitPhase_emit {vocabSize : Nat} {blankIdx : Int} {s : DecState}
    {out : DJOut} (h : selectToken vocabSize blankIdx out.outputs ≠ blankIdx)
    (h1 : s.state1.length = out.newState1.length)
    (h2 : s.state2.length = out.newState2.length) :
    emitPhase vocabSize blankIdx s out = .ok
      { s with
        state1 := out.newState1
        state2 := out.newState2
        tokens := s.tokens ++ [selectToken vocabSize blankIdx out.outputs]
        emitted := s.emitted + 1 } := by
  unfold emitPhase
  rw [if_neg h, if_neg (by simp [h1]), if_neg (by simp [h2])]

/-- Emission phase on a non-blank token with a first-state size
mismatch. -/
theorem emitPhase_err1 {vocabSize : Nat} {blankIdx : Int} {s : DecState}
    {out : DJOut} (h : selectToken vocabSize blankIdx out.outputs ≠ blankIdx)
    (h1 : s.state1.length ≠ out.newState1.length) :
    emitPhase vocabSize blankIdx s out = .error "State1 size mismatch" := by
  unfold emitPhase
  rw [if_neg h, if_pos h1]

/-- Emission phase on a non-blank token with a second-state size
mismatch (first state matching). -/
theorem emitPhase_err2 {vocabSize : Nat} {blankIdx : Int} {s : DecState}
    {out : DJOut} (h : selectToken vocabSize blankIdx out.outputs ≠ blankIdx)
    (h1 : s.state1.length = out.newState1.length)
    (h2 : s.state2.length ≠ out.newState2.length) :
    emitPhase vocabSize blankIdx s out = .error "State2 size mismatch" := by
  unfold emitPhase
  rw [if_neg h, if_neg (by simp [h1]), if_pos h2]

/-- Advance equation for a positive duration step. -/
theorem advance_dur {blankIdx token : Int} {step : Nat} {s : DecState}
    (h : 0 < step) :
    advance blankIdx token step s = { s with t := s.t + step, emitted := 0 } := by
  unfold advance
  rw [if_pos h]

/-- Advance equation for zero duration with a blank token or a counter at
the cap. -/
theorem advance_one {blankIdx token : Int} {step : Nat} {s : DecState}
    (h0 : step = 0) (h : token = blankIdx ∨ 10 ≤ s.emitted) :
    advance blankIdx token step s = { s with t := s.t + 1, emitted := 0 } := by
  unfold advance
  rw [h0, if_neg (by omega), if_pos h]

/-- Advance equation for zero duration, a non-blank token and a counter
below the cap: the state is unchanged. -/
theorem advance_stay {blankIdx token : Int} {step : Nat} {s : DecState}
    (h0 : step = 0) (ht : token ≠ blankIdx) (hc : s.emitted < 10) :
    advance blankIdx token step s = s := by
  unfold advance
  rw [h0, if_neg (by omega), if_neg (not_or.mpr ⟨ht, by omega⟩)]

/-- Iterate n decode steps, feeding the decoder-joint oracle with
consecutive iteration indices starting at i. -/
def runSteps (vocabSize : Nat) (blankIdx : Int) (outs : Nat → DJOut) :
    Nat → Nat → DecState → Except String DecState
  | 0, _, s => .ok s
  | n + 1, i, s =>
    match decodeStep vocabSize blankIdx s (outs i) with
    | .error e => .error e
    | .ok s1 => runSteps vocabSize blankIdx outs n (i + 1) s1

/-- Each successful decode step either strictly advances the frame
pointer, or leaves it in place while incrementing the emission counter to
a value of at most 9 (the cap branch fires at 10). -/
theorem decodeStep_progress {vocabSize : Nat} {blankIdx : Int} {s : DecState}
    {out : DJOut} {s1 : DecState}
    (h : decodeStep vocabSize blankIdx s out = .ok s1) :
    s.t < s1.t ∨ (s1.t = s.t ∧ s1.emitted = s.emitted + 1 ∧ s1.emitted ≤ 9) := by
  unfold decodeStep emitPhase at h
  by_cases hstep : 0 < selectStep vocabSize out.outputs
  · by_cases hb : selectToken vocabSize blankIdx out.outputs = blankIdx
    · simp only [hb, if_pos rfl, advance, if_pos hstep] at h
      cases h; left; simp; omega
    · by_cases h1 : s.state1.length ≠ out.newState1.length
      · simp [hb, h1] at h
      · by_cases h2 : s.state2.length ≠ out.newState2.length
        · simp [hb, h1, h2] at h
        · simp only [if_neg hb, if_neg h1, if_neg h2, advance, if_pos hstep] at h
          cases h; left; simp; omega
  · by_cases hb : selectToken vocabSize blankIdx out.outputs = blankIdx
    · simp only [hb, if_pos rfl, advance, if_neg hstep, Or.inl rfl, if_pos] at h
      cases h; left; simp
    · by_cases h1 : s.state1.length ≠ out.newState1.length
      · simp [hb, h1] at h
      · by_cases h2 : s.state2.length ≠ out.newState2.length
        · simp [hb, h1, h2] at h
        · simp only [if_neg hb, if_neg h1, if_neg h2, advance, if_neg hstep] at h
          by_cases hcap : 10 ≤ s.emitted + 1
          · simp only [if_pos (Or.inr hcap)] at h
            cases h; left; simp
          · rw [if_neg (by exact not_or.mpr ⟨hb, hcap⟩)] at h
            cases h; right; refine ⟨rfl, by simp, by simp; omega⟩

/-- Each successful decode step never moves the frame pointer backwards. -/
theorem decodeStep_t_mono {vocabSize : Nat} {blankIdx : Int} {s : DecState}
    {out : DJOut} {s1 : DecState}
    (h : decodeStep vocabSize blankIdx s out = .ok s1) : s.t ≤ s1.t := by
  rcases decodeStep_progress h with h' | ⟨h', _⟩ <;> omega

/-- The decode loop of SttInference::transcribe: while t is below the
bound min(encoded_length, total_frames), run one decode step with the
next decoder-joint invocation; an error aborts. The second component
counts decoder-joint invocations (the loop index). Lean accepts this
definition only because the loop provably terminates, with measure
(bound - t) * 11 + (10 - emitted_tokens). -/
def decodeLoop (vocabSize : Nat) (blankIdx : Int) (outs : Nat → DJOut)
    (bound : Nat) (i : Nat) (s : DecState) : Except String DecState × Nat :=
  if h : s.t < bound then
    match hstep : decodeStep vocabSize blankIdx s (outs i) with
    | .error e => (.error e, i + 1)
    | .ok s1 => decodeLoop vocabSize blankIdx outs bound (i + 1) s1
  else (.ok s, i)
termination_by (bound - s.t) * 11 + (10 - s.emitted)
decreasing_by
  rcases decodeStep_progress hstep with h' | ⟨h1, h2, h3⟩ <;> omega

/-- Auxiliary strong induction on the loop measure: a successful decode
loop can only return once the frame pointer has reached the bound. -/
theorem decodeLoop_ok_ge_aux :
    ∀ (N vocabSize : Nat) (blankIdx : Int) (outs : Nat → DJOut)
      (bound i : Nat) (s r : DecState) (n : Nat),
      (bound - s.t) * 11 + (10 - s.emitted) ≤ N →
      decodeLoop vocabSize blankIdx outs bound i s = (.ok r, n) → bound ≤ r.t := by
  intro N
  induction N with
  | zero =>
    intro vs blank outs bound i s r n hm h
    have hb : ¬s.t < bound := by omega
    rw [decodeLoop, dif_neg hb] at h
    cases h
    omega
  | succ N ih =>
    intro vs blank outs bound i s r n hm h
    rw [decodeLoop] at h
    by_cases hb : s.t < bound
    · rw [dif_pos hb] at h
      split at h
      · cases h
      · rename_i s1 hstep
        refine ih vs blank outs bound (i + 1) s1 r n ?_ h
        rcases decodeStep_progress hstep with h' | ⟨h1, h2, h3⟩ <;> omega
    · rw [dif_neg hb] at h
      cases h
      omega

/-- A successful decode loop returns with the frame pointer at or beyond
the bound. -/
theorem decodeLoop_ok_ge {vocabSize : Nat} {blankIdx : Int} {outs : Nat → DJOut}
    {bound i : Nat} {s r : DecState} {n : Nat}
    (h : decodeLoop vocabSize blankIdx outs bound i s = (.ok r, n)) : bound ≤ r.t :=
  decodeLoop_ok_ge_aux ((bound - s.t) * 11 + (10 - s.emitted)) vocabSize blankIdx
    outs bound i s r n le_rfl h

/-- The frame pointer never decreases across any number of decode steps. -/
theorem runSteps_t_mono :
    ∀ (n : Nat) {vocabSize i : Nat} {blankIdx : Int} {outs : Nat → DJOut}
      {s s' : DecState},
      runSteps vocabSize blankIdx outs n i s = .ok s' → s.t ≤ s'.t := by
  intro n
  induction n with
  | zero =>
    intro _ _ _ _ s s' h
    cases h
    exact le_refl _
  | succ n ih =>
    intro vs i blank outs s s' h
    simp only [runSteps] at h
    cases hstep : decodeStep vs blank s (outs i) with
    | error e => rw [hstep] at h; cases h
    | ok s1 =>
      rw [hstep] at h
      have h2 := ih h
      have h1 := decodeStep_t_mono hstep
      omega

/-- Over a run of decode steps that leaves the frame pointer unchanged,
the emission counter grows by one per step and stays at most 9. -/
theorem runSteps_stall :
    ∀ (n : Nat) {vocabSize i : Nat} {blankIdx : Int} {outs : Nat → DJOut}
      {s s' : DecState},
      runSteps vocabSize blankIdx outs n i s = .ok s' → s'.t = s.t →
      s'.emitted = s.emitted + n ∧ (0 < n → s'.emitted ≤ 9) := by
  intro n
  induction n with
  | zero =>
    intro _ _ _ _ s s' h _
    cases h
    exact ⟨rfl, by omega⟩
  | succ n ih =>
    intro vs i blank outs s s' h ht
    simp only [runSteps] at h
    cases hstep : decodeStep vs blank s (outs i) with
    | error e => rw [hstep] at h; cases h
    | ok s1 =>
      rw [hstep] at h
      have hmono1 := decodeStep_t_mono hstep
      have hmono2 := runSteps_t_mono n h
      have hteq : s1.t = s.t := by omega
      rcases decodeStep_progress hstep with h' | ⟨h1, h2, h3⟩
      · omega
      · obtain ⟨ha, hb⟩ := ih h (by omega)
        rcases Nat.eq_zero_or_pos n with hn | hn
        · subst hn
          refine ⟨by omega, fun _ => by omega⟩
        · exact ⟨by omega, fun _ => (hb hn)⟩

/-- The initial decode state of SttInference::transcribe: no tokens,
frame pointer 0, emission counter 0, and both recurrent LSTM states
all-zero with flat size 2 * 1 * 640 = 1280. -/
def initDecState : DecState where
  tokens := []
  t := 0
  emitted := 0
  state1 := List.replicate 1280 0
  state2 := List.replicate 1280 0

/-- The oracle environment for one transcription: the encoded length
reported by the encoder, the frame count of the encoder output shape,
and the decoder-joint outputs per iteration. The preprocessor and
encoder are modelled as always succeeding; their outputs beyond these
three observables do not influence the decode loop. -/
structure PipeEnv where
  encodedLen : Nat
  numFrames : Nat
  djOuts : Nat → DJOut

/-- The token-to-text fold at the end of SttInference::transcribe: look
every emitted id up in the vocabulary map and append the found strings;
an absent id appends nothing. -/
def detokRaw (vocab : Int → Option (List Char)) (tokens : List Int) : List Char :=
  tokens.foldl
    (fun acc id =>
      match vocab id with
      | some str => acc ++ str
      | none => acc)
    []

/-- The detokenizer of SttInference::transcribe: fold the vocabulary
strings of the emitted ids, then trim and collapse whitespace. -/
def detok (vocab : Int → Option (List Char)) (tokens : List Int) : List Char :=
  cleanWhitespace (detokRaw vocab tokens)

/-- Model of SttInference::transcribe. Empty audio short-circuits to an
empty transcript before any engine call. Otherwise the preprocessor and
encoder run once each, the decode loop runs from the zero initial state
up to bound min(encoded_length, total_frames), and the emitted tokens
are detokenized. The second component counts engine invocations
(preprocessor + encoder + one decoder-joint call per loop iteration). -/
def transcribe (vocabSize : Nat) (blankIdx : Int)
    (vocab : Int → Option (List Char)) (env : PipeEnv)
    ( audio : List Rat) : Except String (List Char) × Nat :=
  if audio.isEmpty then (.ok [], 0)
  else
    match decodeLoop vocabSize blankIdx env.djOuts
        (min env.encodedLen env.numFrames) 0 initDecState with
    | (.error e, n) => (.error e, 2 + n)
    | (.ok s, n) => (.ok (detok vocab s.tokens), 2 + n)

/-- Invariant of the max_by fold over an enumerated suffix: starting from
an accumulator whose index lies below every enumerated index, the result
is the accumulator or an enumerated element, its value dominates the
accumulator and all enumerated values, every element enumerated after the
result is strictly smaller, and the result index never drops below the
accumulator index. -/
theorem foldl_maxByF_spec (xs : List Int) :
    ∀ (m : Nat) (q : Nat × Int), q.1 < m →
      ((List.enumFrom m xs).foldl maxByF q = q ∨
        (m ≤ ((List.enumFrom m xs).foldl maxByF q).1 ∧
          ((List.enumFrom m xs).foldl maxByF q).1 - m < xs.length ∧
          xs.getD (((List.enumFrom m xs).foldl maxByF q).1 - m) 0 =
            ((List.enumFrom m xs).foldl maxByF q).2)) ∧
      q.2 ≤ ((List.enumFrom m xs).foldl maxByF q).2 ∧
      (∀ j, j < xs.length →
        xs.getD j 0 ≤ ((List.enumFrom m xs).foldl maxByF q).2) ∧
      (∀ j, j < xs.length → ((List.enumFrom m xs).foldl maxByF q).1 < m + j →
        xs.getD j 0 < ((List.enumFrom m xs).foldl maxByF q).2) ∧
      q.1 ≤ ((List.enumFrom m xs).foldl maxByF q).1 := by
  induction xs with
  | nil =>
    intro m q _
    simp [List.enumFrom]
  | cons x xs ih =>
    intro m q hq
    simp only [List.enumFrom, List.foldl_cons]
    by_cases hcmp : x < q.2
    · have hqx : maxByF q (m, x) = q := by simp [maxByF, hcmp]
      rw [hqx]
      obtain ⟨hA, hB, hC, hD, hE⟩ := ih (m + 1) q (by omega)
      refine ⟨?_, hB, ?_, ?_, hE⟩
      · rcases hA with hA | ⟨h1, h2, h3⟩
        · exact Or.inl hA
        · right
          refine ⟨by omega, by simp; omega, ?_⟩
          have hsub : ((List.enumFrom (m + 1) xs).foldl maxByF q).1 - m =
              (((List.enumFrom (m + 1) xs).foldl maxByF q).1 - (m + 1)) + 1 := by
            omega
          rw [hsub, List.getD_cons_succ]
          exact h3
      · intro j hj
        cases j with
        | zero => simpa using le_trans (le_of_lt hcmp) hB
        | succ jj => simpa using hC jj (by simpa using hj)
      · intro j hj hlt
        cases j with
        | zero =>
          rcases hA with hA | ⟨h1, _, _⟩
          · rw [hA]
            simpa using hcmp
          · omega
        | succ jj =>
          simp only [List.getD_cons_succ]
          exact hD jj (by simpa using hj) (by omega)
    · have hqx : maxByF q (m, x) = (m, x) := by simp [maxByF, hcmp]
      rw [hqx]
      obtain ⟨hA, hB, hC, hD, hE⟩ := ih (m + 1) (m, x) (by omega)
      have hqle : q.2 ≤ x := not_lt.mp hcmp
      refine ⟨?_, le_trans hqle hB, ?_, ?_, by simpa using le_trans (le_of_lt hq) hE⟩
      · rcases hA with hA | ⟨h1, h2, h3⟩
        · right
          rw [hA]
          simp
        · right
          refine ⟨by omega, by simp; omega, ?_⟩
          have hsub : ((List.enumFrom (m + 1) xs).foldl maxByF (m, x)).1 - m =
              (((List.enumFrom (m + 1) xs).foldl maxByF (m, x)).1 - (m + 1)) + 1 := by
            omega
          rw [hsub, List.getD_cons_succ]
          exact h3
      · intro j hj
        cases j with
        | zero => simpa using hB
        | succ jj => simpa using hC jj (by simpa using hj)
      · intro j hj hlt
        cases j with
        | zero =>
          have : m ≤ ((List.enumFrom (m + 1) xs).foldl maxByF (m, x)).1 := by
            simpa using hE
          omega
        | succ jj =>
          simp only [List.getD_cons_succ]
          exact hD jj (by simpa using hj) (by omega)

/-- Characterization of the implemented arg-max: when it returns an
index-value pair, the index is the position of the maximum with ties
broken to the highest index. -/
theorem argMaxLast_spec {xs : List Int} {i : Nat} {v : Int}
    (h : argMaxLast xs = some (i, v)) :
    IsLastArgmax xs i ∧ xs.getD i 0 = v := by
  cases xs with
  | nil => simp [argMaxLast, List.enum] at h
  | cons x xs =>
    have hdef : argMaxLast (x :: xs) =
        some ((List.enumFrom 1 xs).foldl maxByF (0, x)) := rfl
    rw [hdef] at h
    have hfv : (List.enumFrom 1 xs).foldl maxByF (0, x) = (i, v) :=
      Option.some.inj h
    obtain ⟨hA, hB, hC, hD, hE⟩ := foldl_maxByF_spec xs 1 (0, x) (by omega)
    rw [hfv] at hA hB hC hD hE
    have hiv : ((i : Nat), v).1 = i ∧ ((i : Nat), v).2 = v := ⟨rfl, rfl⟩
    constructor
    · refine ⟨?_, ?_, ?_⟩
      · rcases hA with hA | ⟨h1, h2, _⟩
        · cases hA
          simp
        · have h1' : 1 ≤ i := h1
          have h2' : i - 1 < xs.length := h2
          simp only [List.length_cons]
          omega
      · intro j hj
        have hgv : (x :: xs).getD i 0 = v := by
          rcases hA with hA | ⟨h1, h2, h3⟩
          · cases hA
            simp
          · have hsub : i = (i - 1) + 1 := by omega
            rw [hsub, List.getD_cons_succ]
            simpa using h3
        rw [hgv]
        cases j with
        | zero => simpa using hB
        | succ jj => simpa using hC jj (by simpa using hj)
      · intro j hj hij
        have hgv : (x :: xs).getD i 0 = v := by
          rcases hA with hA | ⟨h1, h2, h3⟩
          · cases hA
            simp
          · have hsub : i = (i - 1) + 1 := by omega
            rw [hsub, List.getD_cons_succ]
            simpa using h3
        rw [hgv]
        cases j with
        | zero => omega
        | succ jj =>
          simp only [List.getD_cons_succ]
          exact hD jj (by simpa using hj) (by omega)
    · rcases hA with hA | ⟨h1, h2, h3⟩
      · cases hA
        simp
      · have hsub : i = (i - 1) + 1 := by omega
        rw [hsub, List.getD_cons_succ]
        simpa using h3

/-- The implemented arg-max returns a value exactly on nonempty input. -/
theorem argMaxLast_isSome {xs : List Int} (h : xs ≠ []) :
    ∃ iv, argMaxLast xs = some iv := by
  cases xs with
  | nil => exact absurd rfl h
  | cons x xs => exact ⟨(List.enumFrom 1 xs).foldl maxByF (0, x), rfl⟩

/-- The token-to-text fold appends, to any accumulator, exactly the
concatenated vocabulary strings of the ids found in the map, in order. -/
theorem detokRaw_foldl (vocab : Int → Option (List Char)) :
    ∀ (tokens : List Int) (acc : List Char),
      tokens.foldl
        (fun acc id =>
          match vocab id with
          | some str => acc ++ str
          | none => acc)
        acc =
      acc ++
        ((tokens.filter fun id => (vocab id).isSome).map
          fun id => (vocab id).getD []).flatten := by
  intro tokens
  induction tokens with
  | nil => intro acc; simp
  | cons id rest ih =>
    intro acc
    cases hv : vocab id with
    | none => simp [List.foldl_cons, hv, List.filter_cons, ih]
    | some str => simp [List.foldl_cons, hv, List.filter_cons, ih]

/-- The vocabulary loader errors exactly when some line has at least two
space-separated pieces and an unparseable id; lines with fewer than two
pieces never cause an error. -/
theorem loadVocabGo_error_iff :
    ∀ (lines : List (List Char)) (vocab : List (Int × List Char)) (blank : Int),
      (∃ e, loadVocabGo lines vocab blank = .error e) ↔
        ∃ line ∈ lines, 2 ≤ (splitSpaces (trimChars line)).length ∧
          parseI64 ((splitSpaces (trimChars line)).getD 1 []) = none := by
  intro lines
  induction lines with
  | nil =>
    intro vocab blank
    constructor
    · rintro ⟨e, h⟩
      simp [loadVocabGo] at h
    · rintro ⟨line, hmem, -⟩
      cases hmem
  | cons line rest ih =>
    intro vocab blank
    simp only [loadVocabGo]
    by_cases hlen : 2 ≤ (splitSpaces (trimChars line)).length
    · rw [if_pos hlen]
      cases hp : parseI64 ((splitSpaces (trimChars line)).getD 1 []) with
      | none =>
        constructor
        · intro _
          exact ⟨line, List.mem_cons_self line rest, hlen, hp⟩
        · intro _
          exact ⟨_, rfl⟩
      | some id =>
        constructor
        · rintro ⟨e, h⟩
          obtain ⟨l, hl, hprop⟩ := (ih _ _).mp ⟨e, h⟩
          exact ⟨l, List.mem_cons_of_mem line hl, hprop⟩
        · rintro ⟨l, hl, hprop⟩
          rcases List.mem_cons.mp hl with rfl | hl'
          · rw [hp] at hprop
            cases hprop.2
          · exact (ih _ _).mpr ⟨l, hl', hprop⟩
    · rw [if_neg hlen]
      constructor
      · rintro ⟨e, h⟩
        obtain ⟨l, hl, hprop⟩ := (ih _ _).mp ⟨e, h⟩
        exact ⟨l, List.mem_cons_of_mem line hl, hprop⟩
      · rintro ⟨l, hl, hprop⟩
        rcases List.mem_cons.mp hl with rfl | hl'
        · exact absurd hprop.1 hlen
        · exact (ih _ _).mpr ⟨l, hl', hprop⟩

/-- The fixed manifest of model files required for inference
(MODEL_FILES in stt.rs). -/
def MODEL_FILES : List String :=
  ["nemo128.onnx", "encoder-model.onnx", "encoder-model.onnx.data",
   "decoder_joint-model.onnx", "vocab.txt", "config.json"]

/-- Model status (ModelStatus in stt.rs). Download progress is modelled
as an exact rational; the code stores the f32 rounding of the same
quotient. -/
inductive ModelStatus where
  | notDownloaded
  | downloading (progress : Rat)
  | ready
  | error (message : String)
deriving DecidableEq

/-- Environment of one download_models run: whether the state is already
Ready with loaded engines (the idempotence early return), which manifest
fetches succeed, and whether the final engine build succeeds. -/
structure DlEnv where
  alreadyReady : Bool
  fetchOk : Nat → Bool
  buildOk : Bool

/-- Observable state touched by download_models: the model status, the
set of files present in the model directory, and the sequence of emitted
progress events. -/
structure DlState where
  status : ModelStatus
  disk : List String
  events : List Rat
deriving DecidableEq

/-- The manifest loop of download_models: before fetching file i, emit
progress i / total and store status Downloading with that progress; a
fetch failure aborts with an error, touching nothing further (no
cleanup); after the last file, emit 1.0, build the engines, and set
status Ready on success. A build failure also aborts with an error. -/
def dlGo (env : DlEnv) : Nat → List String → DlState → Except String Unit × DlState
  | _, [], s =>
    let s1 : DlState := { s with events := s.events ++ [1] }
    if env.buildOk then (.ok (), { s1 with status := .ready })
    else (.error "Failed to load models", s1)
  | i, f :: rest, s =>
    let progress : Rat := (i : Rat) / (MODEL_FILES.length : Rat)
    let s1 : DlState :=
      { s with events := s.events ++ [progress], status := .downloading progress }
    if env.fetchOk i then dlGo env (i + 1) rest { s1 with disk := s1.disk ++ [f] }
    else (.error ("Failed to download " ++ f), s1)

/-- Model of download_models: return immediately when the model is
already Ready with loaded engines; otherwise set status Downloading 0
and run the manifest loop over MODEL_FILES. -/
def download_models (env : DlEnv) (init : DlState) :
    Except String Unit × DlState :=
  if env.alreadyReady then (.ok (), init)
  else dlGo env 0 MODEL_FILES { init with status := .downloading 0 }

/-- Recording-session state of SttState: the audio buffer, the recording
flag, and the model status. -/
structure SttStateM where
  audioBuffer : List Rat
  isRecording : Bool
  modelStatus : ModelStatus
deriving DecidableEq

/-- Model of SttState::start_recording: fails unless the model status is
Ready, else clears the buffer and starts recording. -/
def start_recording (s : SttStateM) : Except String SttStateM :=
  match s.modelStatus with
  | .ready => .ok { s with audioBuffer := [], isRecording := true }
  | _ => .error "Model not ready. Please download the model first."

/-- Model of SttState::push_audio: fails with NotRecording unless
recording, else appends the samples in order. -/
def push_audio (s : SttStateM) (samples : List Rat) : Except String SttStateM :=
  if s.isRecording then .ok { s with audioBuffer := s.audioBuffer ++ samples }
  else .error "Not recording"

/-- Model of SttState::stop_recording: unconditionally stops recording
and drains the buffer (std::mem::take), returning the drained samples.
It has no failure path. -/
def stop_recording (s : SttStateM) : List Rat × SttStateM :=
  (s.audioBuffer, { s with isRecording := false, audioBuffer := [] })

/-- A manifest loop that fails at global file index i returns an error,
leaves the status at Downloading with the progress last set before the
failing file, keeps everything already on disk, and keeps every file
fetched before the failure. -/
theorem dlGo_fail (env : DlEnv) (i : Nat) (hfail : env.fetchOk i = false) :
    ∀ (rest : List String) (k : Nat) (s : DlState),
      k ≤ i → i - k < rest.length →
      (∀ j, k ≤ j → j < i → env.fetchOk j = true) →
      ∃ e s_f, dlGo env k rest s = (.error e, s_f) ∧
        s_f.status = .downloading ((i : Rat) / (MODEL_FILES.length : Rat)) ∧
        (∀ x, x ∈ s.disk → x ∈ s_f.disk) ∧
        (∀ j, k ≤ j → j < i → rest.getD (j - k) "" ∈ s_f.disk) := by
  intro rest
  induction rest with
  | nil =>
    intro k s _ hlen _
    simp at hlen
  | cons f rest ih =>
    intro k s hk hlen hok
    by_cases hki : k = i
    · refine ⟨"Failed to download " ++ f,
        { status := .downloading ((i : Rat) / (MODEL_FILES.length : Rat))
          disk := s.disk
          events := s.events ++ [(i : Rat) / (MODEL_FILES.length : Rat)] },
        ?_, rfl, fun x hx => hx, fun j hj1 hj2 => absurd hj2 (by omega)⟩
      rw [hki]
      simp only [dlGo, hfail, Bool.false_eq_true, if_false]
    · have hk' : k < i := lt_of_le_of_ne hk hki
      have hfk : env.fetchOk k = true := hok k le_rfl hk'
      obtain ⟨e, s_f, hgo, hst, hdisk, hfiles⟩ :=
        ih (k + 1)
          { status := .downloading ((k : Rat) / (MODEL_FILES.length : Rat))
            disk := s.disk ++ [f]
            events := s.events ++ [(k : Rat) / (MODEL_FILES.length : Rat)] }
          (by omega) (by simp at hlen ⊢; omega)
          (fun j hj1 hj2 => hok j (by omega) hj2)
      refine ⟨e, s_f, ?_, hst, ?_, ?_⟩
      · simp only [dlGo, hfk, if_true]
        exact hgo
      · intro x hx
        exact hdisk x (by simp [hx])
      · intro j hj1 hj2
        rcases eq_or_lt_of_le hj1 with rfl | hjlt
        · simpa using hdisk f (by simp)
        · have hsub : j - k = (j - (k + 1)) + 1 := by omega
          have hget : (f :: rest).getD (j - k) "" = rest.getD (j - (k + 1)) "" := by
            rw [hsub, List.getD_cons_succ]
          rw [hget]
          exact hfiles j (by omega) hj2

/-- Decode-step computation under non-blank token, zero duration and
matching state sizes: the emission happens, and the advance is the
same-frame branch below the cap and the cap branch at it. -/
theorem sameFrameRun (vs : Nat) (blank : Int) (outs : Nat → DJOut) (L1 L2 : Nat)
    (htok : ∀ j, selectToken vs blank (outs j).outputs ≠ blank)
    (hstp : ∀ j, selectStep vs (outs j).outputs = 0)
    (hlen1 : ∀ j, (outs j).newState1.length = L1)
    (hlen2 : ∀ j, (outs j).newState2.length = L2) :
    ∀ (k i0 : Nat) (s0 : DecState),
      s0.state1.length = L1 → s0.state2.length = L2 →
      s0.emitted ≤ 9 → s0.emitted + k ≤ 10 →
      ∃ s', runSteps vs blank outs k i0 s0 = .ok s' ∧
        s'.state1.length = L1 ∧ s'.state2.length = L2 ∧
        (s0.emitted + k ≤ 9 → s'.t = s0.t ∧ s'.emitted = s0.emitted + k) ∧
        (s0.emitted + k = 10 → s'.t = s0.t + 1 ∧ s'.emitted = 0) := by
  intro k
  induction k with
  | zero =>
    intro i0 s0 hs1 hs2 he hek
    exact ⟨s0, rfl, hs1, hs2, fun _ => ⟨rfl, rfl⟩, fun h10 => by omega⟩
  | succ k ih =>
    intro i0 s0 hs1 hs2 he hek
    have hl1 : s0.state1.length = (outs i0).newState1.length := by
      rw [hs1, hlen1 i0]
    have hl2 : s0.state2.length = (outs i0).newState2.length := by
      rw [hs2, hlen2 i0]
    have hdec0 := decodeStep_emit_ok (emitPhase_emit (htok i0) hl1 hl2)
    by_cases hcap : s0.emitted + 1 ≤ 9
    · rw [advance_stay (hstp i0) (htok i0) (by simp; omega)] at hdec0
      simp only [runSteps]
      rw [hdec0]
      obtain ⟨s', hrun, h1, h2, h3, h4⟩ :=
        ih (i0 + 1)
          { s0 with
            state1 := (outs i0).newState1
            state2 := (outs i0).newState2
            tokens := s0.tokens ++ [selectToken vs blank (outs i0).outputs]
            emitted := s0.emitted + 1 }
          (by simp [hlen1 i0]) (by simp [hlen2 i0]) (by simp; omega)
          (by simp; omega)
      refine ⟨s', hrun, h1, h2, ?_, ?_⟩
      · intro hle
        obtain ⟨ht, hem⟩ := h3 (by simp; omega)
        refine ⟨ht, ?_⟩
        simp only at hem
        omega
      · intro h10
        obtain ⟨ht, hem⟩ := h4 (by simp; omega)
        exact ⟨ht, hem⟩
    · have hk0 : k = 0 := by omega
      subst hk0
      rw [advance_one (hstp i0) (Or.inr (by simp; omega))] at hdec0
      simp only [runSteps]
      rw [hdec0]
      exact ⟨_, rfl, by simp [hlen1 i0], by simp [hlen2 i0],
        fun hle => by omega, fun _ => ⟨by simp, by simp⟩⟩

instance {ε α : Type} [DecidableEq ε] [DecidableEq α] :
    DecidableEq (Except ε α) := fun a b =>
  match a, b with
  | .error e1, .error e2 =>
    if h : e1 = e2 then .isTrue (by rw [h])
    else .isFalse (by intro hc; cases hc; exact h rfl)
  | .error _, .ok _ => .isFalse (by intro hc; cases hc)
  | .ok _, .error _ => .isFalse (by intro hc; cases hc)
  | .ok a1, .ok a2 =>
    if h : a1 = a2 then .isTrue (by rw [h])
    else .isFalse (by intro hc; cases hc; exact h rfl)

/-- C1, counterexample: on the tied token logits [5, 5] the implemented
selection (Rust max_by) picks index 1, while the claimed lowest-index
tie-break (argMaxFirst, modelled from the spec) picks index 0, so the
claim as stated is false at this input. -/
theorem c1_counterexample :
    selectToken 2 0 [(5 : Int), 5] = 1 ∧ argMaxFirst [(5 : Int), 5] = some (0, 5) := by
  decide

/-- C1 (amended): in every decode step the selected token is the arg-max
over the token logits (the first vocab_size joint outputs) with ties
broken to the HIGHEST index (the last maximal element under Rust max_by),
or the blank id when that segment is empty; the duration step is the
arg-max over the remaining outputs with ties likewise broken to the
highest index, or 0 when that segment is empty. -/
theorem c1_tie_break_highest :
    (∀ (vocabSize : Nat) (blankIdx : Int) (outputs : List Int),
      outputs.take vocabSize = [] →
        selectToken vocabSize blankIdx outputs = blankIdx) ∧
    (∀ (vocabSize : Nat) (blankIdx : Int) (outputs : List Int),
      outputs.take vocabSize ≠ [] →
        ∃ i : Nat, selectToken vocabSize blankIdx outputs = (i : Int) ∧
          IsLastArgmax (outputs.take vocabSize) i) ∧
    (∀ (vocabSize : Nat) (outputs : List Int),
      outputs.drop vocabSize = [] → selectStep vocabSize outputs = 0) ∧
    (∀ (vocabSize : Nat) (outputs : List Int),
      outputs.drop vocabSize ≠ [] →
        IsLastArgmax (outputs.drop vocabSize) (selectStep vocabSize outputs)) := by
  refine ⟨?_, ?_, ?_, ?_⟩
  · intro vs blank outputs h
    unfold selectToken
    rw [h]
    rfl
  · intro vs blank outputs h
    obtain ⟨⟨i, v⟩, hm⟩ := argMaxLast_isSome h
    refine ⟨i, ?_, (argMaxLast_spec hm).1⟩
    unfold selectToken
    rw [hm]
  · intro vs outputs h
    unfold selectStep
    rw [h]
    rfl
  · intro vs outputs h
    obtain ⟨⟨i, v⟩, hm⟩ := argMaxLast_isSome h
    have hsel : selectStep vs outputs = i := by
      unfold selectStep
      cases hd : outputs.drop vs with
      | nil => exact absurd hd h
      | cons x xs =>
        rw [hd] at hm
        simp only [List.isEmpty_cons, Bool.false_eq_true, if_false]
        rw [hm]
    rw [hsel]
    exact (argMaxLast_spec hm).1

/-- C1 witness: concrete nonempty token and duration segments where the
characterized selections hold. -/
theorem c1_witness :
    (∃ i : Nat, selectToken 2 0 [(1 : Int), 5, 3, 7, 7] = (i : Int) ∧
      IsLastArgmax ([(1 : Int), 5, 3, 7, 7].take 2) i) ∧
    IsLastArgmax ([(1 : Int), 5, 3, 7, 7].drop 2)
      (selectStep 2 [(1 : Int), 5, 3, 7, 7]) :=
  ⟨c1_tie_break_highest.2.1 2 0 [(1 : Int), 5, 3, 7, 7] (by decide),
   c1_tie_break_highest.2.2.2 2 [(1 : Int), 5, 3, 7, 7] (by decide)⟩

/-- C2: after every successful decode step exactly one advance branch
applies, in priority order — a positive duration step advances t by
exactly that step and zeroes the counter; otherwise a blank token, or a
counter that has reached 10 with this emission counted, advances t by
exactly 1 and zeroes the counter; otherwise t is unchanged and the
counter holds the incremented emission count. Consequently, with zero
duration and a non-blank token at every step, t is unchanged for 9
steps and advances by exactly 1 at the 10th consecutive same-frame
emission. -/
theorem c2_advance_policy :
    (∀ (vocabSize : Nat) (blankIdx : Int) (s : DecState) (out : DJOut)
      (s1 : DecState),
      decodeStep vocabSize blankIdx s out = .ok s1 →
      (0 < selectStep vocabSize out.outputs →
        s1.t = s.t + selectStep vocabSize out.outputs ∧ s1.emitted = 0) ∧
      (selectStep vocabSize out.outputs = 0 →
        selectToken vocabSize blankIdx out.outputs = blankIdx →
        s1.t = s.t + 1 ∧ s1.emitted = 0) ∧
      (selectStep vocabSize out.outputs = 0 →
        selectToken vocabSize blankIdx out.outputs ≠ blankIdx →
        10 ≤ s.emitted + 1 → s1.t = s.t + 1 ∧ s1.emitted = 0) ∧
      (selectStep vocabSize out.outputs = 0 →
        selectToken vocabSize blankIdx out.outputs ≠ blankIdx →
        s.emitted + 1 < 10 → s1.t = s.t ∧ s1.emitted = s.emitted + 1)) ∧
    (∀ (vocabSize : Nat) (blankIdx : Int) (outs : Nat → DJOut) (s0 : DecState)
      (i0 : Nat),
      s0.emitted = 0 →
      (∀ j, selectToken vocabSize blankIdx (outs j).outputs ≠ blankIdx) →
      (∀ j, selectStep vocabSize (outs j).outputs = 0) →
      (∀ j, (outs j).newState1.length = s0.state1.length) →
      (∀ j, (outs j).newState2.length = s0.state2.length) →
      (∃ s', runSteps vocabSize blankIdx outs 9 i0 s0 = .ok s' ∧ s'.t = s0.t) ∧
      (∃ s', runSteps vocabSize blankIdx outs 10 i0 s0 = .ok s' ∧
        s'.t = s0.t + 1)) := by
  constructor
  · intro vs blank s out s1 h
    by_cases hb : selectToken vs blank out.outputs = blank
    · rw [decodeStep_emit_ok (emitPhase_blank hb)] at h
      have hs1 := (Except.ok.inj h).symm
      refine ⟨?_, ?_, ?_, ?_⟩
      · intro hstep
        rw [hs1, advance_dur hstep]
        exact ⟨rfl, rfl⟩
      · intro hstep0 _
        rw [hs1, advance_one hstep0 (Or.inl hb)]
        exact ⟨rfl, rfl⟩
      · intro _ hnb _
        exact absurd hb hnb
      · intro _ hnb _
        exact absurd hb hnb
    · by_cases h1 : s.state1.length = out.newState1.length
      · by_cases h2 : s.state2.length = out.newState2.length
        · rw [decodeStep_emit_ok (emitPhase_emit hb h1 h2)] at h
          have hs1 := (Except.ok.inj h).symm
          refine ⟨?_, ?_, ?_, ?_⟩
          · intro hstep
            rw [hs1, advance_dur hstep]
            exact ⟨rfl, rfl⟩
          · intro _ hbb
            exact absurd hbb hb
          · intro hstep0 _ hcap
            rw [hs1, advance_one hstep0 (Or.inr (by simp; omega))]
            exact ⟨rfl, rfl⟩
          · intro hstep0 _ hlt
            rw [hs1, advance_stay hstep0 hb (by simp; omega)]
            exact ⟨rfl, rfl⟩
        · rw [decodeStep_emit_err (emitPhase_err2 hb h1 h2)] at h
          cases h
      · rw [decodeStep_emit_err (emitPhase_err1 hb h1)] at h
        cases h
  · intro vs blank outs s0 i0 he0 htok hstp hl1 hl2
    constructor
    · obtain ⟨s', hrun, -, -, h3, -⟩ :=
        sameFrameRun vs blank outs s0.state1.length s0.state2.length htok hstp
          hl1 hl2 9 i0 s0 rfl rfl (by omega) (by omega)
      exact ⟨s', hrun, (h3 (by omega)).1⟩
    · obtain ⟨s', hrun, -, -, -, h4⟩ :=
        sameFrameRun vs blank outs s0.state1.length s0.state2.length htok hstp
          hl1 hl2 10 i0 s0 rfl rfl (by omega) (by omega)
      exact ⟨s', hrun, (h4 (by omega)).1⟩

/-- C2 witness: a constant non-blank, zero-duration oracle from a fresh
state advances t by exactly 1 after the 10th same-frame emission. -/
theorem c2_witness :
    ∃ s', runSteps 2 0 (fun _ => DJOut.mk [0, 1] [] []) 10 0
      (DecState.mk [] 0 0 [] []) = .ok s' ∧ s'.t = 0 + 1 :=
  (c2_advance_policy.2 2 0 (fun _ => DJOut.mk [0, 1] [] [])
    (DecState.mk [] 0 0 [] []) 0 rfl
    (fun _ => by show selectToken 2 0 [(0 : Int), 1] ≠ 0; decide)
    (fun _ => by show selectStep 2 [(0 : Int), 1] = 0; decide)
    (fun _ => rfl) (fun _ => rfl)).2

/-- Advance never touches the first recurrent state tensor. -/
theorem advance_state1 {blankIdx token : Int} {step : Nat} {s : DecState} :
    (advance blankIdx token step s).state1 = s.state1 := by
  unfold advance
  split
  · rfl
  · split
    · rfl
    · rfl

/-- Advance never touches the second recurrent state tensor. -/
theorem advance_state2 {blankIdx token : Int} {step : Nat} {s : DecState} :
    (advance blankIdx token step s).state2 = s.state2 := by
  unfold advance
  split
  · rfl
  · split
    · rfl
    · rfl

/-- C3: within one transcription, both recurrent state tensors start as
the all-zero tensors; a step whose selected token is blank leaves both
unchanged; a successful step with a non-blank token overwrites both with
the decoder-joint's returned states; and a returned-state size mismatch
on a non-blank step aborts the step with the corresponding fatal
error. -/
theorem c3_state_gating :
    (initDecState.state1 = List.replicate 1280 0 ∧
      initDecState.state2 = List.replicate 1280 0) ∧
    (∀ (vocabSize : Nat) (blankIdx : Int) (s : DecState) (out : DJOut),
      selectToken vocabSize blankIdx out.outputs = blankIdx →
      ∃ s1, decodeStep vocabSize blankIdx s out = .ok s1 ∧
        s1.state1 = s.state1 ∧ s1.state2 = s.state2) ∧
    (∀ (vocabSize : Nat) (blankIdx : Int) (s : DecState) (out : DJOut)
      (s1 : DecState),
      selectToken vocabSize blankIdx out.outputs ≠ blankIdx →
      decodeStep vocabSize blankIdx s out = .ok s1 →
      s1.state1 = out.newState1 ∧ s1.state2 = out.newState2) ∧
    (∀ (vocabSize : Nat) (blankIdx : Int) (s : DecState) (out : DJOut),
      selectToken vocabSize blankIdx out.outputs ≠ blankIdx →
      s.state1.length ≠ out.newState1.length →
      decodeStep vocabSize blankIdx s out = .error "State1 size mismatch") ∧
    (∀ (vocabSize : Nat) (blankIdx : Int) (s : DecState) (out : DJOut),
      selectToken vocabSize blankIdx out.outputs ≠ blankIdx →
      s.state1.length = out.newState1.length →
      s.state2.length ≠ out.newState2.length →
      decodeStep vocabSize blankIdx s out = .error "State2 size mismatch") := by
  refine ⟨⟨rfl, rfl⟩, ?_, ?_, ?_, ?_⟩
  · intro vs blank s out hb
    exact ⟨_, decodeStep_emit_ok (emitPhase_blank hb), advance_state1,
      advance_state2⟩
  · intro vs blank s out s1 hb h
    by_cases h1 : s.state1.length = out.newState1.length
    · by_cases h2 : s.state2.length = out.newState2.length
      · rw [decodeStep_emit_ok (emitPhase_emit hb h1 h2)] at h
        have hs1 := (Except.ok.inj h).symm
        rw [hs1]
        exact ⟨advance_state1, advance_state2⟩
      · rw [decodeStep_emit_err (emitPhase_err2 hb h1 h2)] at h
        cases h
    · rw [decodeStep_emit_err (emitPhase_err1 hb h1)] at h
      cases h
  · intro vs blank s out hb h1
    exact decodeStep_emit_err (emitPhase_err1 hb h1)
  · intro vs blank s out hb h1 h2
    exact decodeStep_emit_err (emitPhase_err2 hb h1 h2)

/-- C3 witness: concrete blank, emitting, and mismatching steps. -/
theorem c3_witness :
    (∃ s1, decodeStep 1 0 (DecState.mk [] 0 0 [5] [6]) (DJOut.mk [7] [1] [2]) =
      .ok s1 ∧ s1.state1 = [5] ∧ s1.state2 = [6]) ∧
    ((DecState.mk [1] 0 1 [3] [4]).state1 = [3] ∧
      (DecState.mk [1] 0 1 [3] [4]).state2 = [4]) ∧
    decodeStep 2 0 (DecState.mk [] 0 0 [9] [8]) (DJOut.mk [0, 1] [3, 3] [4]) =
      .error "State1 size mismatch" ∧
    decodeStep 2 0 (DecState.mk [] 0 0 [9] [8]) (DJOut.mk [0, 1] [3] [4, 4]) =
      .error "State2 size mismatch" :=
  ⟨c3_state_gating.2.1 1 0 (DecState.mk [] 0 0 [5] [6]) (DJOut.mk [7] [1] [2])
      (by decide),
   c3_state_gating.2.2.1 2 0 (DecState.mk [] 0 0 [9] [8])
      (DJOut.mk [0, 1] [3] [4]) (DecState.mk [1] 0 1 [3] [4]) (by decide)
      (by decide),
   c3_state_gating.2.2.2.1 2 0 (DecState.mk [] 0 0 [9] [8])
      (DJOut.mk [0, 1] [3, 3] [4]) (by decide) (by decide),
   c3_state_gating.2.2.2.2 2 0 (DecState.mk [] 0 0 [9] [8])
      (DJOut.mk [0, 1] [3] [4, 4]) (by decide) (by decide) (by decide)⟩

/-- C4: the decode loop terminates for every audio input and every
oracle: the frame pointer never decreases across a successful step, any
11 consecutive successful iterations strictly increase it (at most 9
consecutive same-frame iterations are possible before the cap forces an
advance), and a successful loop returns only with t at or beyond the
bound min(encoded_length, total_frames). Totality of decodeLoop itself
is established by its termination measure. -/
theorem c4_termination :
    (∀ (vocabSize : Nat) (blankIdx : Int) (s : DecState) (out : DJOut)
      (s1 : DecState),
      decodeStep vocabSize blankIdx s out = .ok s1 → s.t ≤ s1.t) ∧
    (∀ (vocabSize i : Nat) (blankIdx : Int) (outs : Nat → DJOut)
      (s s' : DecState),
      runSteps vocabSize blankIdx outs 11 i s = .ok s' → s.t < s'.t) ∧
    (∀ (vocabSize : Nat) (blankIdx : Int) (outs : Nat → DJOut) (bound i : Nat)
      (s r : DecState) (n : Nat),
      decodeLoop vocabSize blankIdx outs bound i s = (.ok r, n) →
      bound ≤ r.t) := by
  refine ⟨fun _ _ _ _ _ h => decodeStep_t_mono h, ?_,
    fun _ _ _ _ _ _ _ _ h => decodeLoop_ok_ge h⟩
  intro vs i blank outs s s' h
  by_contra hlt
  push_neg at hlt
  have hmono := runSteps_t_mono 11 h
  have hteq : s'.t = s.t := le_antisymm hlt hmono
  obtain ⟨ha, hb⟩ := runSteps_stall 11 h hteq
  have := hb (by omega)
  omega

/-- Unfolding equation for one running iteration of the decode loop. -/
theorem decodeLoop_step (vocabSize : Nat) (blankIdx : Int) (outs : Nat → DJOut)
    (bound i : Nat) (s s1 : DecState) (h : s.t < bound)
    (hstep : decodeStep vocabSize blankIdx s (outs i) = .ok s1) :
    decodeLoop vocabSize blankIdx outs bound i s =
      decodeLoop vocabSize blankIdx outs bound (i + 1) s1 := by
  rw [decodeLoop, dif_pos h]
  split
  · rename_i e heq
    rw [hstep] at heq
    cases heq
  · rename_i s2 heq
    rw [hstep] at heq
    cases heq
    rfl

/-- Unfolding equation for the decode loop at its exit condition. -/
theorem decodeLoop_exit (vocabSize : Nat) (blankIdx : Int) (outs : Nat → DJOut)
    (bound i : Nat) (s : DecState) (h : ¬s.t < bound) :
    decodeLoop vocabSize blankIdx outs bound i s = (.ok s, i) := by
  rw [decodeLoop, dif_neg h]

/-- C4 witness: an always-blank oracle advances t by 1 per step; 11 steps
strictly increase t, and the loop with bound 3 exits at t = 3 after 3
decoder calls. -/
theorem c4_witness :
    runSteps 1 0 (fun _ => DJOut.mk [7] [] []) 11 0 (DecState.mk [] 0 0 [] []) =
        .ok (DecState.mk [] 11 0 [] []) ∧
      (DecState.mk [] 0 0 [] [] : DecState).t <
        (DecState.mk [] 11 0 [] [] : DecState).t ∧
      decodeLoop 1 0 (fun _ => DJOut.mk [7] [] []) 3 0 (DecState.mk [] 0 0 [] []) =
        (.ok (DecState.mk [] 3 0 [] []), 3) ∧
      3 ≤ (DecState.mk [] 3 0 [] [] : DecState).t := by
  have hstep0 : decodeStep 1 0 (DecState.mk [] 0 0 [] []) (DJOut.mk [7] [] []) =
      .ok (DecState.mk [] 1 0 [] []) := by decide
  have hstep1 : decodeStep 1 0 (DecState.mk [] 1 0 [] []) (DJOut.mk [7] [] []) =
      .ok (DecState.mk [] 2 0 [] []) := by decide
  have hstep2 : decodeStep 1 0 (DecState.mk [] 2 0 [] []) (DJOut.mk [7] [] []) =
      .ok (DecState.mk [] 3 0 [] []) := by decide
  have hrun : runSteps 1 0 (fun _ => DJOut.mk [7] [] []) 11 0
      (DecState.mk [] 0 0 [] []) = .ok (DecState.mk [] 11 0 [] []) := by decide
  have hloop : decodeLoop 1 0 (fun _ => DJOut.mk [7] [] []) 3 0
      (DecState.mk [] 0 0 [] []) = (.ok (DecState.mk [] 3 0 [] []), 3) := by
    rw [decodeLoop_step 1 0 (fun _ => DJOut.mk [7] [] []) 3 0
        (DecState.mk [] 0 0 [] []) (DecState.mk [] 1 0 [] [])
        (by norm_num) hstep0,
      decodeLoop_step 1 0 (fun _ => DJOut.mk [7] [] []) 3 1
        (DecState.mk [] 1 0 [] []) (DecState.mk [] 2 0 [] [])
        (by norm_num) hstep1,
      decodeLoop_step 1 0 (fun _ => DJOut.mk [7] [] []) 3 2
        (DecState.mk [] 2 0 [] []) (DecState.mk [] 3 0 [] [])
        (by norm_num) hstep2,
      decodeLoop_exit 1 0 (fun _ => DJOut.mk [7] [] []) 3 3
        (DecState.mk [] 3 0 [] []) (by norm_num)]
  exact ⟨hrun, c4_termination.2.1 1 0 0 (fun _ => DJOut.mk [7] [] []) _ _ hrun,
    hloop, c4_termination.2.2 1 0 (fun _ => DJOut.mk [7] [] []) 3 0 _ _ 3 hloop⟩

/-- C5, counterexample: a table consisting of the single malformed line
"abc" (one column, so no id column) loads successfully with an empty
vocabulary — a malformed line is silently skipped, not a parse error, so
the claim as stated is false at this input. -/
theorem c5_counterexample :
    (splitSpaces (trimChars ("abc".toList))).length < 2 ∧
      load_vocab [("abc".toList)] = .ok ([], 0, 0) := by
  decide

/-- C5 (amended): vocabulary loading fails with a parse error exactly
when some line has at least two space-separated columns and a second
column that does not parse as an i64 id; a malformed line with fewer
than two columns is silently skipped and never causes an error. -/
theorem c5_parse_errors :
    ∀ (lines : List (List Char)),
      (∃ e, load_vocab lines = .error e) ↔
        ∃ line ∈ lines, 2 ≤ (splitSpaces (trimChars line)).length ∧
          parseI64 ((splitSpaces (trimChars line)).getD 1 []) = none := by
  intro lines
  exact loadVocabGo_error_iff lines [] 0

/-- C5 witness: a concrete table whose second line has a non-integer id
column makes loading fail. -/
theorem c5_witness :
    ∃ e, load_vocab ["a 1".toList, "x 5z".toList] = .error e :=
  (c5_parse_errors ["a 1".toList, "x 5z".toList]).mpr
    ⟨"x 5z".toList, by decide, by decide, by decide⟩

/-- C8: empty input audio short-circuits transcribe to an empty
transcript with zero engine invocations, for every vocabulary and every
engine oracle. -/
theorem c8_empty_audio :
    ∀ (vocabSize : Nat) (blankIdx : Int) (vocab : Int → Option (List Char))
      (env : PipeEnv),
      transcribe vocabSize blankIdx vocab env [] = (.ok [], 0) := by
  intro vs blank vocab env
  rfl

/-- C9, counterexample: stop_recording on a fresh, never-recording
session does not fail — it returns the (empty) buffer and the Idle
state, so the claim that it fails with NotRecording is false. -/
theorem c9_counterexample :
    stop_recording (SttStateM.mk [] false .notDownloaded) =
      ([], SttStateM.mk [] false .notDownloaded) := rfl

/-- C9 (amended): whenever the session is not recording, push_audio
fails with NotRecording; stop_recording never fails — called without a
prior start_recording it simply returns the buffered samples and leaves
the session Idle with an empty buffer. -/
theorem c9_not_recording :
    (∀ (s : SttStateM) (samples : List Rat),
      s.isRecording = false → push_audio s samples = .error "Not recording") ∧
    (∀ s : SttStateM, s.isRecording = false →
      stop_recording s = (s.audioBuffer,
        { s with isRecording := false, audioBuffer := [] })) := by
  constructor
  · intro s samples h
    simp [push_audio, h]
  · intro s _
    rfl

/-- C9 witness: concrete idle sessions for both conjuncts. -/
theorem c9_witness :
    push_audio (SttStateM.mk [] false .notDownloaded) [1] =
        .error "Not recording" ∧
      stop_recording (SttStateM.mk [(1 : Rat)] false .ready) =
        ([(1 : Rat)], SttStateM.mk [] false .ready) :=
  ⟨c9_not_recording.1 (SttStateM.mk [] false .notDownloaded) [1] rfl,
   c9_not_recording.2 (SttStateM.mk [(1 : Rat)] false .ready) rfl⟩

/-- C10: detokenization silently skips every emitted id absent from the
vocabulary map: the result is the whitespace cleanup (trim plus collapse
of internal whitespace runs to single spaces) of the concatenation, in
emission order, of the vocabulary strings of exactly the ids present in
the map. -/
theorem c10_detok_skips_unknown :
    ∀ (vocab : Int → Option (List Char)) (tokens : List Int),
      detok vocab tokens =
        cleanWhitespace
          (((tokens.filter fun id => (vocab id).isSome).map
            fun id => (vocab id).getD []).flatten) := by
  intro vocab tokens
  unfold detok detokRaw
  rw [detokRaw_foldl]
  rfl

/-- C6, counterexample: with fetches failing from the third manifest file
on, download_models returns an error and keeps the two completed files,
but the resulting status is Downloading (2 of 6), not Error — so the
claim that the status afterwards is Error is false at this input. -/
theorem c6_counterexample :
    download_models (DlEnv.mk false (fun i => decide (i < 2)) true)
        (DlState.mk .notDownloaded [] []) =
      (.error "Failed to download encoder-model.onnx.data",
        DlState.mk (.downloading (1 / 3))
          ["nemo128.onnx", "encoder-model.onnx"] [0, 1 / 6, 1 / 3]) ∧
      ∀ msg, ModelStatus.downloading (1 / 3) ≠ ModelStatus.error msg := by
  constructor
  · norm_num [download_models, dlGo, MODEL_FILES]
    decide
  · intro msg hcon
    cases hcon

/-- C6 (amended): if download_models fails while fetching manifest file
i (all earlier fetches succeeding), it returns an error and the already
fetched files remain on disk with no cleanup, but the model status
afterwards remains Downloading with progress i over the manifest size —
it is never set to Error by the download path. -/
theorem c6_failure_keeps_downloading :
    ∀ (env : DlEnv) (init : DlState) (i : Nat),
      env.alreadyReady = false → i < MODEL_FILES.length →
      env.fetchOk i = false → (∀ j, j < i → env.fetchOk j = true) →
      ∃ e s_f, download_models env init = (.error e, s_f) ∧
        s_f.status = .downloading ((i : Rat) / (MODEL_FILES.length : Rat)) ∧
        (∀ msg, s_f.status ≠ .error msg) ∧
        (∀ x, x ∈ init.disk → x ∈ s_f.disk) ∧
        (∀ j, j < i → MODEL_FILES.getD j "" ∈ s_f.disk) := by
  intro env init i halready hi hfail hok
  obtain ⟨e, s_f, hgo, hst, hdisk, hfiles⟩ :=
    dlGo_fail env i hfail MODEL_FILES 0
      { init with status := .downloading 0 }
      (by omega) (by simpa using hi) (fun j _ hj2 => hok j hj2)
  refine ⟨e, s_f, ?_, hst, ?_, ?_, ?_⟩
  · rw [download_models, if_neg (by simp [halready])]
    exact hgo
  · intro msg
    rw [hst]
    intro hcon
    cases hcon
  · intro x hx
    exact hdisk x hx
  · intro j hj
    simpa using hfiles j (by omega) hj

/-- C6 witness: the concrete environment failing at the third file
satisfies the amended conclusion. -/
theorem c6_witness :
    ∃ e s_f, download_models (DlEnv.mk false (fun i => decide (i < 2)) true)
        (DlState.mk .notDownloaded [] []) = (.error e, s_f) ∧
      s_f.status =
        .downloading (((2 : Nat) : Rat) / (MODEL_FILES.length : Rat)) ∧
      (∀ msg, s_f.status ≠ .error msg) ∧
      (∀ x, x ∈ (DlState.mk ModelStatus.notDownloaded [] [] : DlState).disk →
        x ∈ s_f.disk) ∧
      (∀ j, j < 2 → MODEL_FILES.getD j "" ∈ s_f.disk) :=
  c6_failure_keeps_downloading (DlEnv.mk false (fun i => decide (i < 2)) true)
    (DlState.mk .notDownloaded [] []) 2 rfl (by decide) (by decide)
    (fun _ hj => decide_eq_true hj)

/-- C7: a download run over the 6-file manifest with every fetch and the
final engine build succeeding emits exactly the progress values 0, 1/6,
2/6, 3/6, 4/6, 5/6, 1 in that order (the value k/6 once k files have
completed, before the next file begins, and the final 1 once more after
the last file) and ends with the model status Ready. -/
theorem c7_progress_sequence :
    ∀ (env : DlEnv) (init : DlState),
      env.alreadyReady = false → (∀ i, i < 6 → env.fetchOk i = true) →
      env.buildOk = true → init.events = [] →
      ∃ s_f, download_models env init = (.ok (), s_f) ∧
        s_f.events = [0, 1 / 6, 2 / 6, 3 / 6, 4 / 6, 5 / 6, 1] ∧
        s_f.status = ModelStatus.ready := by
  intro env init halready hf hb hev
  have h0 := hf 0 (by norm_num)
  have h1 := hf 1 (by norm_num)
  have h2 := hf 2 (by norm_num)
  have h3 := hf 3 (by norm_num)
  have h4 := hf 4 (by norm_num)
  have h5 := hf 5 (by norm_num)
  have hres : download_models env init =
      (.ok (), DlState.mk .ready (init.disk ++ MODEL_FILES)
        [0, 1 / 6, 2 / 6, 3 / 6, 4 / 6, 5 / 6, 1]) := by
    rw [download_models, if_neg (by simp [halready])]
    norm_num [dlGo, MODEL_FILES, h0, h1, h2, h3, h4, h5, hb, hev,
      List.append_assoc]
  exact ⟨_, hres, rfl, rfl⟩

/-- C7 witness: a concrete all-successful environment and fresh state. -/
theorem c7_witness :
    ∃ s_f, download_models (DlEnv.mk false (fun _ => true) true)
        (DlState.mk .notDownloaded [] []) = (.ok (), s_f) ∧
      s_f.events = [0, 1 / 6, 2 / 6, 3 / 6, 4 / 6, 5 / 6, 1] ∧
      s_f.status = ModelStatus.ready :=
  c7_progress_sequence (DlEnv.mk false (fun _ => true) true)
    (DlState.mk .notDownloaded [] []) rfl (fun _ _ => rfl) rfl rfl
